import Mathlib

/-!
Verification development for the Gazelle Python dependency resolver
(`gazelle/python/resolve.go`): dependency resolution of import records,
the deps/pyiDeps set builder, and the deps-order constraint engine that
computes `deps_to_remove`.

The Go code is shallowly embedded: maps become association lists,
treesets of label strings become `Finset String`, file I/O outcomes
become an explicit `FileResult` value, and `os.Exit(1)` becomes a
`fatal` flag that aborts the sequential unit run.
-/

set_option autoImplicit false

namespace GazellePython

/-! ## String helpers mirroring Go's strings/filepath functions

They are written over `List Char` by structural recursion (rather than
through the position-based core `String` library) so that every
function reduces inside the kernel. -/

/-- Splitter loop for `goSplit`. -/
def goSplitAux (sep : Char) : List Char → List Char → List (List Char)
  | [], cur => [cur.reverse]
  | c :: rest, cur =>
    if c = sep then cur.reverse :: goSplitAux sep rest []
    else goSplitAux sep rest (c :: cur)

/-- Go `strings.Split` with a one-character separator (the only form
resolve.go uses: `"."` and `"/"`).  `goSplit sep ""` is `[""]`. -/
def goSplit (sep : Char) (s : String) : List String :=
  (goSplitAux sep s.toList []).map String.mk

/-- Go `strings.Join`. -/
def goJoin (sep : String) : List String → String
  | [] => ""
  | [x] => x
  | x :: y :: xs => x ++ sep ++ goJoin sep (y :: xs)

/-- The ASCII white-space characters recognized by Go's
`strings.TrimSpace` (the non-ASCII white-space code points are not
modelled). -/
def isGoSpace (c : Char) : Bool :=
  c == ' ' || c == '\t' || c == '\n' || c == '\r' || c == '\x0b' || c == '\x0c'

/-- Go `strings.TrimSpace` over ASCII. -/
def goTrimSpace (s : String) : String :=
  String.mk (((s.toList.dropWhile isGoSpace).reverse.dropWhile isGoSpace).reverse)

/-- Go `strings.HasPrefix`. -/
def goStartsWith (s pre : String) : Bool :=
  pre.toList.isPrefixOf s.toList

/-- Go `strings.ToLower` over ASCII letters. -/
def goLowerChar (c : Char) : Char :=
  if 'A' ≤ c ∧ c ≤ 'Z' then Char.ofNat (c.toNat + 32) else c

/-- Go `strings.ToLower`. -/
def goToLower (s : String) : String :=
  String.mk (s.toList.map goLowerChar)

/-- Go `strings.Contains(s, ".")`, specialized to one character. -/
def goContainsChar (s : String) (c : Char) : Bool :=
  s.toList.contains c

/-- Go `filepath.Base`: last element of the path after removing trailing
slashes; `""` gives `"."`, an all-slash path gives `"/"`. -/
def filepathBase (s : String) : String :=
  if s = "" then "."
  else
    let t := String.mk ((s.toList.reverse.dropWhile (fun c => c == '/')).reverse)
    if t = "" then "/"
    else (goSplit '/' t).getLastD t

/-- Go `filepath.Join` for the two-argument, already-clean case used in
resolve.go (joining a package dir and a file name). -/
def filepathJoin (dir file : String) : String :=
  if dir = "" then file
  else if file = "" then dir
  else dir ++ "/" ++ file

/-- Count of leading `'.'` characters, as computed by the
`strings.IndexFunc` logic at resolve.go:310-313. -/
def leadingDots (s : String) : Nat :=
  (s.toList.takeWhile (fun c => c == '.')).length

/-- Go `strings.TrimLeft(s, ".")`. -/
def trimLeadingDots (s : String) : String :=
  String.mk (s.toList.dropWhile (fun c => c == '.'))

/-- The text after the last `'.'` (the whole string when it has no dot):
the `strings.LastIndex` slicing at resolve.go:316-319. -/
def lastSegment (s : String) : String :=
  (goSplit '.' s).getLastD s

/-! ## Association-list model of Go maps (lookup and overwrite-insert) -/

/-- Lookup in a Go map modelled as an association list. -/
def assocLookup {α : Type} : List (String × α) → String → Option α
  | [], _ => none
  | (k', v') :: rest, k => if k' = k then some v' else assocLookup rest k

/-- Go map assignment `m[k] = v`: overwrite the existing entry or append
a new one.  Maps built from `[]` by this operation have pairwise
distinct keys, so `List.length` is the Go `len(m)`. -/
def assocUpsert {α : Type} : List (String × α) → String → α → List (String × α)
  | [], k, v => [(k, v)]
  | (k', v') :: rest, k, v =>
    if k' = k then (k, v) :: rest else (k', v') :: assocUpsert rest k v

abbrev StrMap := List (String × Nat)

/-! ## DepsOrderResolver (resolve.go:52-165) -/

structure DepsOrderResolver where
  fileToIndex : StrMap
  loaded : Bool
  importToSrcs : List (String × List String)
deriving DecidableEq

/-- `NewDepsOrderResolver` (resolve.go:60-66). -/
def NewDepsOrderResolver : DepsOrderResolver :=
  { fileToIndex := [], loaded := false, importToSrcs := [] }

/-- Outcome of the attempt to open and scan `deps-order.txt`:
the file is absent, opening fails with a different I/O error, or the
scanner yields `lines` and then either succeeds or reports a read error
(`scanErr = true`; the lines seen before the failure were processed). -/
inductive FileResult
  | missing
  | openError
  | ok (lines : List String) (scanErr : Bool)
deriving DecidableEq

/-- The scanner loop of `LoadDepsOrder` (resolve.go:86-95): trim each
line, skip blank and `#` lines, and assign consecutive indices to the
rest, overwriting earlier entries for a duplicated line. -/
def scanLines : StrMap → Nat → List String → StrMap
  | m, _, [] => m
  | m, idx, l :: rest =>
    let line := goTrimSpace l
    if line = "" ∨ goStartsWith line "#" = true then scanLines m idx rest
    else scanLines (assocUpsert m line idx) (idx + 1) rest

/-- `LoadDepsOrder` (resolve.go:69-103).  The returned `Bool` is `true`
when the call returns a non-nil error.  A missing file marks the
resolver loaded with an empty table; an open error leaves everything
unchanged; a scan error surfaces after the scanned lines were already
inserted, and does not mark the resolver loaded. -/
def LoadDepsOrder (d : DepsOrderResolver) (fr : FileResult) :
    DepsOrderResolver × Bool :=
  if d.loaded then (d, false)
  else
    match fr with
    | .missing => ({ d with loaded := true }, false)
    | .openError => (d, true)
    | .ok lines scanErr =>
      let m := scanLines d.fileToIndex 0 lines
      if scanErr then ({ d with fileToIndex := m }, true)
      else ({ d with fileToIndex := m, loaded := true }, false)

/-- Rank of one source file: exact path first, bare filename as
fallback (resolve.go:114-122). -/
def rankOf (m : StrMap) (src : String) : Option Nat :=
  match assocLookup m src with
  | some idx => some idx
  | none => assocLookup m (filepathBase src)

/-- One step of the accumulation loop in `GetAverageIndex`
(resolve.go:113-123): the pair is `(totalIndex, validSrcs)`. -/
def avgStep (m : StrMap) (acc : Nat × Nat) (src : String) : Nat × Nat :=
  match rankOf m src with
  | some idx => (acc.1 + idx, acc.2 + 1)
  | none => acc

/-- `GetAverageIndex` (resolve.go:106-130), with the float64 arithmetic
modelled exactly over `ℚ` (the summed indices and counts are small
integers). -/
def GetAverageIndex (d : DepsOrderResolver) (srcs : List String) : ℚ :=
  if d.fileToIndex.length = 0 then 0
  else
    let acc := srcs.foldl (avgStep d.fileToIndex) (0, 0)
    if acc.2 = 0 then (d.fileToIndex.length : ℚ)
    else (acc.1 : ℚ) / (acc.2 : ℚ)

/-- `ShouldAddToDepsToRemove` (resolve.go:133-143). -/
def ShouldAddToDepsToRemove (d : DepsOrderResolver)
    (currentTargetSrcs depTargetSrcs : List String) : Bool :=
  if d.fileToIndex.length = 0 then false
  else decide (GetAverageIndex d currentTargetSrcs < GetAverageIndex d depTargetSrcs)

/-- `RegisterImportSources` (resolve.go:146-157). -/
def RegisterImportSources (d : DepsOrderResolver) (importSpecs : List String)
    (pkgPath : String) (srcs : List String) : DepsOrderResolver :=
  let repoRelativeSrcs := srcs.map (filepathJoin pkgPath)
  { d with importToSrcs :=
      importSpecs.foldl (fun m spec => assocUpsert m spec repoRelativeSrcs) d.importToSrcs }

/-- `getSourcesForImport` (resolve.go:160-165). -/
def getSourcesForImport (d : DepsOrderResolver) (importName : String) : List String :=
  (assocLookup d.importToSrcs importName).getD []

/-! ## Dependency set builder (resolve.go:258-267, 566-577) -/

/-- `addDependency` (resolve.go:258-267): the pair is `(deps, pyiDeps)`. -/
def addDependency (dep : String) (typeCheckingOnly : Bool)
    (deps pyiDeps : Finset String) : Finset String × Finset String :=
  if typeCheckingOnly then
    if dep ∈ deps then (deps, pyiDeps)
    else (deps, insert dep pyiDeps)
  else (insert dep deps, pyiDeps.erase dep)

/-- `addResolvedDeps` (resolve.go:566-577): every pre-resolved name is
added to `deps` unconditionally. -/
def addResolvedDeps (deps resolvedDeps : Finset String) : Finset String :=
  deps ∪ resolvedDeps

/-- `createDepsToRemove` (resolve.go:516-535), as a function of the
resolver state, the current rule's repo-relative sources and the
dependency set it inspects. -/
def createDepsToRemove (d : DepsOrderResolver) (currentSrcsPaths : List String)
    (allDeps : Finset String) : Finset String :=
  if d.fileToIndex.length > 0 then
    allDeps.filter (fun dep =>
      ShouldAddToDepsToRemove d currentSrcsPaths (getSourcesForImport d dep) = true)
  else ∅

/-! ## Import records and the resolution environment (resolve.go:275-497)

External collaborators (the gazelle override store, the third-party
manifest, the first-party rule index, the std-module table and the
configuration) are abstracted as the fields of `ResolveEnv`; label
relativization is abstracted by carrying the final dependency string,
and the `label.Equal(from)` / `IsSelfImport(from)` comparisons are
carried as booleans on the looked-up results. -/

/-- A parsed import statement, the `Module` struct consumed by `Resolve`. -/
structure Module where
  Name : String
  From : String
  Filepath : String
  LineNumber : Nat
  TypeCheckingOnly : Bool
deriving DecidableEq

/-- The two error kinds accumulated in `errs` (resolve.go:415-422 and
445-451). -/
inductive ResErr
  | unresolved (filepath : String) (lineNumber : Nat) (moduleName : String)
  | ambiguous (filepath : String) (lineNumber : Nat) (targets : List String)
      (moduleName : String)
deriving DecidableEq

/-- One result of `FindRulesByImportWithConfig`: the provider's package,
the dependency string after `Label.Rel(from.Repo, from.Pkg).String()`,
the full label text used in error messages, and the
`IsSelfImport(from)` comparison. -/
structure FindResult where
  pkg : String
  dep : String
  labelStr : String
  isSelf : Bool
deriving DecidableEq

/-- `FindRuleWithOverride` outcome: the dependency string after the repo
fixup and relativization of resolve.go:368-375, and the
`override.Equal(from)` comparison. -/
structure OverrideResult where
  dep : String
  isSelf : Bool
deriving DecidableEq

structure ResolveEnv where
  overrides : String → Option OverrideResult
  thirdParty : String → Option (String × String)
  catalogMatches : String → List FindResult
  isStdModule : String → Bool
  validateImportStatements : Bool
  experimentalAllowRelativeImports : Bool
  perFileGeneration : Bool
  coarseGrainedGeneration : Bool
  pythonProjectRoot : String
  generatePyiDeps : Bool
  fileResult : FileResult

/-- `isPackageGeneration` (resolve.go:297). -/
def isPackageGeneration (env : ResolveEnv) : Bool :=
  !env.perFileGeneration && !env.coarseGrainedGeneration

/-- Relative-import normalization (resolve.go:309-346), for a record
whose `From` begins with a dot; `none` is the `InvalidRelativeImport`
case of resolve.go:331-334. -/
def normalizeRelative (pkg : String) (mod : Module) : Option String :=
  let relativeDepth := leadingDots mod.From
  let imported := lastSegment mod.Name
  let fromPath := trimLeadingDots mod.From
  let fromParts := if fromPath = "" then [] else goSplit '.' fromPath
  let pkgParts := goSplit '/' pkg
  if relativeDepth - 1 > pkgParts.length then none
  else
    let baseParts :=
      if relativeDepth > 1 then pkgParts.take (pkgParts.length - (relativeDepth - 1))
      else pkgParts
    some (goJoin "." (baseParts ++ fromParts ++ [imported]))

/-- The loop of resolve.go:351-362 building `possibleModules` by
repeatedly dropping the last dotted segment.  The loop runs while more
than one segment remains; `fuel` is a structural bound on the number of
iterations (any value ≥ `moduleParts.length` is exact). -/
def buildPossibleModules : Nat → List String → List String → List String
  | 0, _, acc => acc
  | fuel + 1, moduleParts, acc =>
    if moduleParts.length > 1 then
      buildPossibleModules fuel moduleParts.dropLast
        (acc ++ [goJoin "." moduleParts.dropLast])
    else acc

/-- The candidate chain for one (already normalized) qualified name
(resolve.go:349-362). -/
def possibleModulesOf (moduleName : String) : List String :=
  buildPossibleModules (goSplit '.' moduleName).length (goSplit '.' moduleName)
    [moduleName]

/-- The four derived stub-package names probed at resolve.go:389-394. -/
def stubTypeModules (distributionName : String) : List String :=
  let low := goToLower distributionName
  [low ++ "_stubs", low ++ "_types", "types_" ++ low, "stubs_" ++ low]

/-- Source-file inference for a first-party match (resolve.go:461-470). -/
def inferDepSrcs (matchPkg moduleName : String) : List String :=
  if goContainsChar moduleName '.' then
    let parts := goSplit '.' moduleName
    [filepathJoin matchPkg (parts.getLastD moduleName ++ ".py")]
  else
    [filepathJoin matchPkg (moduleName ++ ".py")]

/-- Net effect of one module record on the resolver state: either the
record is consumed (`continue MODULES_LOOP`), contributing dependency
additions and `importToSrcs` registrations, or every candidate was
tried and the collected errors remain (resolve.go:484-492 then fires
when they are non-empty). -/
inductive ModuleAction
  | done (adds : List (String × Bool)) (regs : List (String × List String))
  | exhausted (errs : List ResErr)
deriving DecidableEq

/-- Fallback used for the (provably impossible) empty-list head. -/
def noFindResult : FindResult := { pkg := "", dep := "", labelStr := "", isSelf := false }

/-- `POSSIBLE_MODULE_LOOP` (resolve.go:364-483) over the remaining
candidates, with the accumulated `errs`. -/
def candidateLoop (env : ResolveEnv) (mod : Module) :
    List String → List ResErr → ModuleAction
  | [], errs => .exhausted errs
  | moduleName :: rest, errs =>
    match env.overrides moduleName with
    | some ov =>
      if ov.isSelf then candidateLoop env mod rest errs
      else .done [(ov.dep, mod.TypeCheckingOnly)] []
    | none =>
      match env.thirdParty moduleName with
      | some (dep, distributionName) =>
        let stubDeps := (stubTypeModules distributionName).filterMap
          (fun m => (env.thirdParty m).map Prod.fst)
        .done ((dep, mod.TypeCheckingOnly) :: stubDeps.map (fun s => (s, true))) []
      | none =>
        let found := env.catalogMatches moduleName
        if found = [] then
          if env.isStdModule moduleName then .done [] []
          else if env.validateImportStatements then
            candidateLoop env mod rest
              (errs ++ [ResErr.unresolved mod.Filepath mod.LineNumber moduleName])
          else candidateLoop env mod rest errs
        else if found.any (fun m => m.isSelf) then .done [] []
        else if found.length > 1 then
          let sameRootMatches :=
            found.filter (fun m => goStartsWith m.pkg env.pythonProjectRoot)
          if sameRootMatches.length ≠ 1 then
            candidateLoop env mod rest
              (errs ++ [ResErr.ambiguous mod.Filepath mod.LineNumber
                (found.map (fun m => m.labelStr)) moduleName])
          else
            let chosen := sameRootMatches.headD noFindResult
            .done [(chosen.dep, mod.TypeCheckingOnly)]
              [(chosen.dep, inferDepSrcs chosen.pkg moduleName)]
        else
          let chosen := found.headD noFindResult
          .done [(chosen.dep, mod.TypeCheckingOnly)]
            [(chosen.dep, inferDepSrcs chosen.pkg moduleName)]

/-- One `MODULES_LOOP` iteration (resolve.go:300-347 front matter plus
the candidate loop): relative records are skipped when relative imports
are disabled or generation is not package-grained, and an invalid
relative import is logged and skipped. -/
def moduleAction (env : ResolveEnv) (pkg : String) (mod : Module) : ModuleAction :=
  if goStartsWith mod.From "." = true then
    if !(env.experimentalAllowRelativeImports && isPackageGeneration env) then
      .done [] []
    else
      match normalizeRelative pkg mod with
      | none => .done [] []
      | some name => candidateLoop env mod (possibleModulesOf name) []
  else candidateLoop env mod (possibleModulesOf mod.Name) []

/-- Mutable state of one `Resolve` call while the modules iterate. -/
structure ResolveState where
  deps : Finset String
  pyiDeps : Finset String
  d : DepsOrderResolver
  errorBatches : List (List ResErr)
  hasFatalError : Bool

/-- Apply the dependency additions of a consumed record. -/
def applyAdds (adds : List (String × Bool)) (sets : Finset String × Finset String) :
    Finset String × Finset String :=
  adds.foldl (fun s a => addDependency a.1 a.2 s.1 s.2) sets

/-- Apply the `importToSrcs` registrations of a consumed record
(resolve.go:471). -/
def applyRegs (regs : List (String × List String)) (d : DepsOrderResolver) :
    DepsOrderResolver :=
  regs.foldl (fun d p => { d with importToSrcs := assocUpsert d.importToSrcs p.1 p.2 }) d

/-- Process one module record, updating the state; when the candidate
chain is exhausted with errors they are surfaced as one batch for this
record and the fatal flag is set (resolve.go:484-492). -/
def processModule (env : ResolveEnv) (pkg : String) (st : ResolveState)
    (mod : Module) : ResolveState :=
  match moduleAction env pkg mod with
  | .done adds regs =>
    let sets := applyAdds adds (st.deps, st.pyiDeps)
    { st with deps := sets.1, pyiDeps := sets.2, d := applyRegs regs st.d }
  | .exhausted errs =>
    if errs = [] then st
    else { st with errorBatches := st.errorBatches ++ [errs], hasFatalError := true }

/-- The attributes set on the rule at resolve.go:537-561: an attribute
is `none` when `SetAttr` was not called for it. -/
structure EmitResult where
  deps : Option (Finset String)
  pyiDeps : Option (Finset String)
  depsToRemove : Option (Finset String)
deriving DecidableEq

/-- resolve.go:537-561: with `generatePyiDeps` the removal list is
computed from `deps` alone and `pyi_deps` is emitted separately;
otherwise both sets are merged first. -/
def emitAttrs (env : ResolveEnv) (d : DepsOrderResolver)
    (currentSrcsPaths : List String) (deps pyiDeps : Finset String) : EmitResult :=
  if env.generatePyiDeps then
    { deps := if deps = ∅ then none else some deps
      pyiDeps := if pyiDeps = ∅ then none else some pyiDeps
      depsToRemove :=
        if deps = ∅ then none
        else
          let depsToRemove := createDepsToRemove d currentSrcsPaths deps
          if depsToRemove = ∅ then none else some depsToRemove }
  else
    let combinedDeps := deps ∪ pyiDeps
    { deps := if combinedDeps = ∅ then none else some combinedDeps
      pyiDeps := none
      depsToRemove :=
        if combinedDeps = ∅ then none
        else
          let depsToRemove := createDepsToRemove d currentSrcsPaths combinedDeps
          if depsToRemove = ∅ then none else some depsToRemove }

/-- Inputs of one `Resolve` call: the build unit's package, its import
records (`none` when `modulesRaw` is nil), the pre-resolved names from
the rule's private attribute, and its `srcs`.  `selfLabel` records the
string form of the unit's own label `from`; the code never reads it
(self-comparisons happen inside the abstracted lookups), it only names
the unit for the self-dependency statements. -/
structure UnitInput where
  pkg : String
  selfLabel : String
  modules : Option (List Module)
  resolvedDeps : Finset String
  srcs : List String

/-- Outcome of one `Resolve` call.  `fatal` models `os.Exit(1)`
(resolve.go:494-496), which fires before `addResolvedDeps` and
emission; `loadWarning` is the warning log of resolve.go:503-505. -/
structure UnitResult where
  errorBatches : List (List ResErr)
  fatal : Bool
  loadWarning : Bool
  emitted : Option EmitResult
  dOut : DepsOrderResolver

/-- `Resolve` (resolve.go:275-562) for one build unit. -/
def resolveUnit (env : ResolveEnv) (d0 : DepsOrderResolver) (u : UnitInput) :
    UnitResult :=
  let st0 : ResolveState :=
    { deps := ∅, pyiDeps := ∅, d := d0, errorBatches := [], hasFatalError := false }
  let st :=
    match u.modules with
    | none => st0
    | some mods => mods.foldl (processModule env u.pkg) st0
  if st.hasFatalError then
    { errorBatches := st.errorBatches, fatal := true, loadWarning := false
      emitted := none, dOut := st.d }
  else
    let deps := addResolvedDeps st.deps u.resolvedDeps
    let load := LoadDepsOrder st.d env.fileResult
    let currentSrcsPaths := u.srcs.map (filepathJoin u.pkg)
    { errorBatches := st.errorBatches, fatal := false, loadWarning := load.2
      emitted := some (emitAttrs env load.1 currentSrcsPaths deps st.pyiDeps)
      dOut := load.1 }

/-- Sequential processing of the units of one run; `os.Exit(1)` in a
unit terminates the whole process, so later units are not attempted. -/
def runUnits (env : ResolveEnv) : DepsOrderResolver → List UnitInput → List UnitResult
  | _, [] => []
  | d, u :: rest =>
    let r := resolveUnit env d u
    if r.fatal then [r] else r :: runUnits env r.dOut rest

/-! ## Specification-side helper definitions used by the theorems -/

/-- The lines of the order file that survive the trim/skip test of the
scanner loop, in file order. -/
def keptLines : List String → List String
  | [] => []
  | l :: rest =>
    let line := goTrimSpace l
    if line = "" ∨ goStartsWith line "#" = true then keptLines rest
    else line :: keptLines rest

/-- Zero-based index of the last occurrence of `f` in a list. -/
def lastIdxOf : List String → String → Option Nat
  | [], _ => none
  | k :: rest, f =>
    match lastIdxOf rest f with
    | some j => some (j + 1)
    | none => if k = f then some 0 else none

/-- The error batch one record contributes: `none` when the record is
consumed or ends without collected errors, otherwise the list surfaced
together at resolve.go:484-492. -/
def moduleErrorBatch (env : ResolveEnv) (pkg : String) (mod : Module) :
    Option (List ResErr) :=
  match moduleAction env pkg mod with
  | .done _ _ => none
  | .exhausted errs => if errs = [] then none else some errs

/-- Well-formedness of the abstracted override lookup: the recorded
`override.Equal(from)` bit is `true` exactly on the current unit's own
label. -/
def OverridesWF (env : ResolveEnv) (selfLabel : String) : Prop :=
  ∀ n r, env.overrides n = some r → (r.isSelf = true ↔ r.dep = selfLabel)

/-- Well-formedness of the abstracted catalog: the recorded
`IsSelfImport(from)` bit is `true` exactly on the current unit's own
label. -/
def CatalogWF (env : ResolveEnv) (selfLabel : String) : Prop :=
  ∀ n m, m ∈ env.catalogMatches n → (m.isSelf = true ↔ m.dep = selfLabel)

/-- Third-party wheels are external targets, never the current
first-party unit. -/
def ThirdPartyNotSelf (env : ResolveEnv) (selfLabel : String) : Prop :=
  ∀ n p, env.thirdParty n = some p → p.1 ≠ selfLabel

/-! ## Concrete environments and units for the counterexamples and
witnesses -/

/-- Environment with one first-party catalog entry `foo → //lib:foo`,
no ordering file and separate `pyi_deps` emission. -/
def envCatalogFoo : ResolveEnv :=
  { overrides := fun _ => none
    thirdParty := fun _ => none
    catalogMatches := fun n =>
      if n = "foo" then
        [{ pkg := "lib", dep := "//lib:foo", labelStr := "//lib:foo", isSelf := false }]
      else []
    isStdModule := fun _ => false
    validateImportStatements := false
    experimentalAllowRelativeImports := false
    perFileGeneration := false
    coarseGrainedGeneration := false
    pythonProjectRoot := ""
    generatePyiDeps := true
    fileResult := .missing }

/-- Unit whose single import of `foo` is type-checking-only while
`//lib:foo` also arrives through the pre-resolved names. -/
def unitPyiOverlap : UnitInput :=
  { pkg := "app"
    selfLabel := "//app:app"
    modules := some
      [{ Name := "foo", From := "", Filepath := "app/x.py", LineNumber := 3,
         TypeCheckingOnly := true }]
    resolvedDeps := {"//lib:foo"}
    srcs := ["x.py"] }

/-- Environment with an empty catalog and strict validation enabled. -/
def envStrictEmpty : ResolveEnv :=
  { overrides := fun _ => none
    thirdParty := fun _ => none
    catalogMatches := fun _ => []
    isStdModule := fun _ => false
    validateImportStatements := true
    experimentalAllowRelativeImports := false
    perFileGeneration := false
    coarseGrainedGeneration := false
    pythonProjectRoot := ""
    generatePyiDeps := true
    fileResult := .missing }

/-- Two import records that both fail to resolve. -/
def modsTwoFailing : List Module :=
  [{ Name := "aaa", From := "", Filepath := "app/x.py", LineNumber := 1,
     TypeCheckingOnly := false },
   { Name := "bbb", From := "", Filepath := "app/x.py", LineNumber := 2,
     TypeCheckingOnly := false }]

/-- Unit with two import records that both fail to resolve. -/
def unitTwoFailing : UnitInput :=
  { pkg := "app", selfLabel := "//app:app"
    modules := some modsTwoFailing
    resolvedDeps := ∅, srcs := ["x.py"] }

/-- A second, innocuous unit scheduled after `unitTwoFailing`. -/
def unitAfter : UnitInput :=
  { pkg := "lib", selfLabel := "//lib:lib", modules := some [],
    resolvedDeps := ∅, srcs := [] }

/-- Unit whose own label sits in its pre-resolved dependency names. -/
def unitSelfResolved : UnitInput :=
  { pkg := "app", selfLabel := "//app:app", modules := none,
    resolvedDeps := {"//app:app"}, srcs := [] }

/-- Benign environment for witnesses: nothing resolves, nothing is
validated. -/
def envIdle : ResolveEnv :=
  { overrides := fun _ => none
    thirdParty := fun _ => none
    catalogMatches := fun _ => []
    isStdModule := fun _ => false
    validateImportStatements := false
    experimentalAllowRelativeImports := true
    perFileGeneration := false
    coarseGrainedGeneration := false
    pythonProjectRoot := ""
    generatePyiDeps := true
    fileResult := .missing }

/-- A unit with no records and no pre-resolved names. -/
def unitIdle : UnitInput :=
  { pkg := "app", selfLabel := "//app:app", modules := some [],
    resolvedDeps := ∅, srcs := [] }

/-- Relative import record `from .. import sym` for the C6 witness. -/
def modRelative : Module :=
  { Name := "sym", From := "..", Filepath := "a/b/x.py", LineNumber := 7,
    TypeCheckingOnly := false }

/-- A resolver whose table ranks `a.py` before `b.py`, with `//lib:b`
registered as provided by `b.py`. -/
def dOrderedAB : DepsOrderResolver :=
  { fileToIndex := [("a.py", 0), ("b.py", 1)], loaded := true
    importToSrcs := [("//lib:b", ["b.py"])] }

/-! ## Lemmas about the order table -/

theorem assocLookup_upsert {α : Type} (m : List (String × α)) (k : String) (v : α)
    (f : String) :
    assocLookup (assocUpsert m k v) f = if k = f then some v else assocLookup m f := by
  induction m with
  | nil => simp [assocUpsert, assocLookup]
  | cons p rest ih =>
    obtain ⟨k', v'⟩ := p
    by_cases hk : k' = k
    · subst hk
      by_cases hf : k' = f <;> simp [assocUpsert, assocLookup, hf]
    · by_cases hf : k' = f
      · subst hf
        have : ¬k = k' := fun h => hk h.symm
        simp [assocUpsert, assocLookup, hk, this]
      · simp [assocUpsert, assocLookup, hk, hf, ih]

theorem scanLines_lookup (lines : List String) (m : StrMap) (idx : Nat) (f : String) :
    assocLookup (scanLines m idx lines) f =
      match lastIdxOf (keptLines lines) f with
      | some j => some (idx + j)
      | none => assocLookup m f := by
  induction lines generalizing m idx with
  | nil => simp [scanLines, keptLines, lastIdxOf]
  | cons l rest ih =>
    by_cases hskip : goTrimSpace l = "" ∨ goStartsWith (goTrimSpace l) "#" = true
    · simpa [scanLines, keptLines, hskip] using ih m idx
    · simp only [scanLines, keptLines, hskip, if_false]
      rw [ih]
      rcases hlast : lastIdxOf (keptLines rest) f with _ | j
      · simp only [lastIdxOf, hlast, assocLookup_upsert]
        by_cases hf : goTrimSpace l = f <;> simp [hf]
      · simp only [lastIdxOf, hlast]
        congr 1
        omega

theorem scanLines_lookup_fresh (lines : List String) (f : String) :
    assocLookup (scanLines [] 0 lines) f = lastIdxOf (keptLines lines) f := by
  rw [scanLines_lookup]
  rcases lastIdxOf (keptLines lines) f with _ | j <;> simp [assocLookup]

/-! ## Lemmas about the unit rank (average index) -/

theorem foldl_avgStep (m : StrMap) (srcs : List String) (a b : Nat) :
    srcs.foldl (avgStep m) (a, b) =
      (a + (srcs.filterMap (rankOf m)).sum, b + (srcs.filterMap (rankOf m)).length) := by
  induction srcs generalizing a b with
  | nil => simp
  | cons src rest ih =>
    rcases hr : rankOf m src with _ | idx
    · simpa [avgStep, hr] using ih a b
    · simp only [List.foldl_cons, avgStep, hr, ih]
      simp only [List.filterMap_cons, hr, List.sum_cons, List.length_cons,
        Prod.mk.injEq]
      omega

theorem getAverageIndex_empty (d : DepsOrderResolver) (srcs : List String)
    (h : d.fileToIndex = []) : GetAverageIndex d srcs = 0 := by
  simp [GetAverageIndex, h]

theorem getAverageIndex_eq (d : DepsOrderResolver) (srcs : List String)
    (h : d.fileToIndex ≠ []) :
    GetAverageIndex d srcs =
      if srcs.filterMap (rankOf d.fileToIndex) = [] then (d.fileToIndex.length : ℚ)
      else ((srcs.filterMap (rankOf d.fileToIndex)).sum : ℚ) /
        ((srcs.filterMap (rankOf d.fileToIndex)).length : ℚ) := by
  have hlen : d.fileToIndex.length ≠ 0 := by
    simpa [List.length_eq_zero] using h
  simp only [GetAverageIndex, hlen, if_false, foldl_avgStep, Nat.zero_add]
  rcases hfm : srcs.filterMap (rankOf d.fileToIndex) with _ | ⟨r, rs⟩
  · simp
  · simp

theorem shouldAdd_iff (d : DepsOrderResolver) (cur depSrcs : List String) :
    ShouldAddToDepsToRemove d cur depSrcs = true ↔
      GetAverageIndex d cur < GetAverageIndex d depSrcs := by
  by_cases h : d.fileToIndex.length = 0
  · have h' : d.fileToIndex = [] := by simpa [List.length_eq_zero] using h
    simp [ShouldAddToDepsToRemove, h, getAverageIndex_empty _ _ h']
  · simp [ShouldAddToDepsToRemove, h]

theorem mem_createDepsToRemove (d : DepsOrderResolver) (cur : List String)
    (allDeps : Finset String) (dep : String) :
    dep ∈ createDepsToRemove d cur allDeps ↔
      dep ∈ allDeps ∧
        GetAverageIndex d cur < GetAverageIndex d (getSourcesForImport d dep) := by
  by_cases h : d.fileToIndex.length > 0
  · simp [createDepsToRemove, h, Finset.mem_filter, shouldAdd_iff]
  · have h' : d.fileToIndex = [] := by
      simpa [List.length_eq_zero] using Nat.eq_zero_of_not_pos h
    simp [createDepsToRemove, h, getAverageIndex_empty _ _ h']

theorem createDepsToRemove_subset (d : DepsOrderResolver) (cur : List String)
    (allDeps : Finset String) : createDepsToRemove d cur allDeps ⊆ allDeps := by
  intro x hx
  exact (mem_createDepsToRemove d cur allDeps x).mp hx |>.1

/-! ## Lemmas about the candidate chain -/

theorem goSplitAux_ne_nil (sep : Char) (l cur : List Char) :
    goSplitAux sep l cur ≠ [] := by
  induction l generalizing cur with
  | nil => simp [goSplitAux]
  | cons c rest ih =>
    by_cases hc : c = sep <;> simp [goSplitAux, hc, ih]

theorem goSplit_ne_nil (sep : Char) (s : String) : goSplit sep s ≠ [] := by
  simp [goSplit, goSplitAux_ne_nil]

theorem buildPossibleModules_eq (fuel : Nat) (parts acc : List String)
    (h : parts.length ≤ fuel) :
    buildPossibleModules fuel parts acc =
      acc ++ (List.range (parts.length - 1)).map
        (fun i => goJoin "." (parts.take (parts.length - 1 - i))) := by
  induction fuel generalizing parts acc with
  | zero =>
    have : parts.length = 0 := Nat.le_zero.mp h
    simp [buildPossibleModules, this]
  | succ fuel ih =>
    by_cases hlen : parts.length > 1
    · have hdl : parts.dropLast.length ≤ fuel := by
        simp only [List.length_dropLast]; omega
      have step : buildPossibleModules (fuel + 1) parts acc
          = buildPossibleModules fuel parts.dropLast
              (acc ++ [goJoin "." parts.dropLast]) := by
        simp [buildPossibleModules, hlen]
      rw [step, ih _ _ hdl, List.length_dropLast, List.append_assoc]
      congr 1
      have hrange : parts.length - 1 = (parts.length - 1 - 1) + 1 := by omega
      rw [hrange, List.range_succ_eq_map, List.map_cons, List.map_map,
        List.singleton_append]
      congr 1
      · have hb : parts.length - 1 - 1 + 1 = parts.length - 1 := by omega
        rw [hb, List.dropLast_eq_take]
        simp
      · apply List.map_congr_left
        intro i _
        simp only [Function.comp_apply]
        rw [List.dropLast_eq_take, List.take_take]
        congr 2
        omega
    · have : parts.length - 1 = 0 := by omega
      simp [buildPossibleModules, hlen, this]

theorem possibleModulesOf_eq (name : String) :
    possibleModulesOf name =
      name :: (List.range ((goSplit '.' name).length - 1)).map
        (fun i => goJoin "." ((goSplit '.' name).take ((goSplit '.' name).length - 1 - i))) := by
  simpa [possibleModulesOf] using
    buildPossibleModules_eq (goSplit '.' name).length (goSplit '.' name) [name]
      (Nat.le_refl _)

theorem possibleModulesOf_length (name : String) :
    (possibleModulesOf name).length = (goSplit '.' name).length := by
  have hne : (goSplit '.' name).length ≠ 0 := by
    simpa [List.length_eq_zero] using goSplit_ne_nil '.' name
  rw [possibleModulesOf_eq]
  simp only [List.length_cons, List.length_map, List.length_range]
  omega

/-! ## Lemmas about the dependency set builder -/

theorem addDependency_disjoint (dep : String) (tco : Bool)
    (deps pyiDeps : Finset String) (h : deps ∩ pyiDeps = ∅) :
    (addDependency dep tco deps pyiDeps).1 ∩ (addDependency dep tco deps pyiDeps).2 = ∅ := by
  rw [Finset.eq_empty_iff_forall_not_mem] at h ⊢
  intro x hx
  rw [Finset.mem_inter] at hx
  rcases tco with _ | _
  · simp only [addDependency, if_false, Bool.false_eq_true] at hx
    rcases hx with ⟨h1, h2⟩
    rw [Finset.mem_insert] at h1
    rw [Finset.mem_erase] at h2
    rcases h1 with h1 | h1
    · exact h2.1 h1
    · exact h x (Finset.mem_inter.mpr ⟨h1, h2.2⟩)
  · by_cases hd : dep ∈ deps
    · simp only [addDependency, if_true, hd] at hx
      exact h x (Finset.mem_inter.mpr hx)
    · simp only [addDependency, if_true, hd, if_false] at hx
      rcases hx with ⟨h1, h2⟩
      rw [Finset.mem_insert] at h2
      rcases h2 with h2 | h2
      · exact hd (h2 ▸ h1)
      · exact h x (Finset.mem_inter.mpr ⟨h1, h2⟩)

theorem applyAdds_disjoint (adds : List (String × Bool))
    (sets : Finset String × Finset String) (h : sets.1 ∩ sets.2 = ∅) :
    (applyAdds adds sets).1 ∩ (applyAdds adds sets).2 = ∅ := by
  induction adds generalizing sets with
  | nil => simpa [applyAdds]
  | cons a rest ih =>
    simp only [applyAdds, List.foldl_cons]
    exact ih _ (addDependency_disjoint a.1 a.2 sets.1 sets.2 h)

theorem processModule_disjoint (env : ResolveEnv) (pkg : String)
    (st : ResolveState) (mod : Module) (h : st.deps ∩ st.pyiDeps = ∅) :
    (processModule env pkg st mod).deps ∩ (processModule env pkg st mod).pyiDeps = ∅ := by
  cases hact : moduleAction env pkg mod with
  | done adds regs =>
    simpa [processModule, hact] using applyAdds_disjoint adds (st.deps, st.pyiDeps) h
  | exhausted errs =>
    by_cases he : errs = [] <;> simp [processModule, hact, he, h]

theorem foldModules_disjoint (env : ResolveEnv) (pkg : String)
    (mods : List Module) (st : ResolveState) (h : st.deps ∩ st.pyiDeps = ∅) :
    (mods.foldl (processModule env pkg) st).deps ∩
      (mods.foldl (processModule env pkg) st).pyiDeps = ∅ := by
  induction mods generalizing st with
  | nil => simpa
  | cons mod rest ih =>
    exact ih _ (processModule_disjoint env pkg st mod h)

theorem addDependency_false_mem (dep : String) (deps pyiDeps : Finset String) :
    dep ∈ (addDependency dep false deps pyiDeps).1 ∧
      dep ∉ (addDependency dep false deps pyiDeps).2 := by
  simp [addDependency]

theorem addDependency_true_of_mem (dep : String) (deps pyiDeps : Finset String)
    (h : dep ∈ deps) : addDependency dep true deps pyiDeps = (deps, pyiDeps) := by
  simp [addDependency, h]

theorem addDependency_true_of_not_mem (dep : String) (deps pyiDeps : Finset String)
    (h : dep ∉ deps) :
    addDependency dep true deps pyiDeps = (deps, insert dep pyiDeps) := by
  simp [addDependency, h]

/-! ## Lemmas about error batching and the fatal flag -/

theorem processModule_errorBatches (env : ResolveEnv) (pkg : String)
    (st : ResolveState) (mod : Module) :
    (processModule env pkg st mod).errorBatches =
      st.errorBatches ++ (moduleErrorBatch env pkg mod).toList ∧
    (processModule env pkg st mod).hasFatalError =
      (st.hasFatalError || !(moduleErrorBatch env pkg mod).toList.isEmpty) := by
  cases hact : moduleAction env pkg mod with
  | done adds regs => simp [processModule, hact, moduleErrorBatch]
  | exhausted errs =>
    by_cases he : errs = [] <;>
      simp [processModule, hact, moduleErrorBatch, he]

theorem foldModules_errorBatches (env : ResolveEnv) (pkg : String)
    (mods : List Module) (st : ResolveState) :
    (mods.foldl (processModule env pkg) st).errorBatches =
      st.errorBatches ++ mods.filterMap (moduleErrorBatch env pkg) ∧
    (mods.foldl (processModule env pkg) st).hasFatalError =
      (st.hasFatalError || !(mods.filterMap (moduleErrorBatch env pkg)).isEmpty) := by
  induction mods generalizing st with
  | nil => simp
  | cons mod rest ih =>
    obtain ⟨hb, hf⟩ := processModule_errorBatches env pkg st mod
    obtain ⟨ihb, ihf⟩ := ih (processModule env pkg st mod)
    constructor
    · rw [List.foldl_cons, ihb, hb]
      rcases hmb : moduleErrorBatch env pkg mod with _ | b <;>
        simp [List.filterMap_cons, hmb]
    · rw [List.foldl_cons, ihf, hf]
      rcases hmb : moduleErrorBatch env pkg mod with _ | b <;>
        simp [List.filterMap_cons, hmb, Bool.or_assoc]

/-! ## Lemmas about self-import filtering -/

theorem headD_mem {α : Type} (l : List α) (d : α) (h : l ≠ []) : l.headD d ∈ l := by
  cases l with
  | nil => exact absurd rfl h
  | cons x xs => simp

theorem candidateLoop_done_not_self (env : ResolveEnv) (selfLabel : String)
    (how : OverridesWF env selfLabel) (hcat : CatalogWF env selfLabel)
    (htp : ThirdPartyNotSelf env selfLabel) (mod : Module) :
    ∀ (cands : List String) (errs : List ResErr) (adds : List (String × Bool))
      (regs : List (String × List String)),
      candidateLoop env mod cands errs = .done adds regs →
      ∀ p ∈ adds, p.1 ≠ selfLabel := by
  intro cands
  induction cands with
  | nil =>
    intro errs adds regs h
    simp [candidateLoop] at h
  | cons mn rest ih =>
    intro errs adds regs h p hp
    simp only [candidateLoop] at h
    cases hov : env.overrides mn with
    | some ov =>
      simp only [hov] at h
      by_cases hself : ov.isSelf = true
      · rw [if_pos hself] at h
        exact ih errs adds regs h p hp
      · rw [if_neg hself] at h
        obtain ⟨ha, -⟩ := ModuleAction.done.inj h.symm
        have hdep : ov.dep ≠ selfLabel := by
          intro hc
          exact hself (((how mn ov hov).mpr) hc)
        rw [ha] at hp
        rcases List.mem_singleton.mp hp with rfl
        exact hdep
    | none =>
      simp only [hov] at h
      cases htpmn : env.thirdParty mn with
      | some pr =>
        obtain ⟨dep, distributionName⟩ := pr
        simp only [htpmn] at h
        obtain ⟨ha, -⟩ := ModuleAction.done.inj h.symm
        rw [ha] at hp
        rcases List.mem_cons.mp hp with rfl | hstub
        · exact htp mn (dep, distributionName) htpmn
        · obtain ⟨s, hs, rfl⟩ := List.mem_map.mp hstub
          obtain ⟨m, -, hms⟩ := List.mem_filterMap.mp hs
          obtain ⟨q, hq, hq1⟩ := Option.map_eq_some'.mp hms
          intro hc
          exact htp m q hq (by rw [hq1]; exact hc)
      | none =>
        simp only [htpmn] at h
        by_cases hfound : env.catalogMatches mn = []
        · rw [if_pos hfound] at h
          by_cases hstd : env.isStdModule mn = true
          · rw [if_pos hstd] at h
            obtain ⟨ha, -⟩ := ModuleAction.done.inj h.symm
            rw [ha] at hp
            simp at hp
          · rw [if_neg hstd] at h
            by_cases hval : env.validateImportStatements = true
            · rw [if_pos hval] at h
              exact ih _ adds regs h p hp
            · rw [if_neg hval] at h
              exact ih _ adds regs h p hp
        · rw [if_neg hfound] at h
          by_cases hany : (env.catalogMatches mn).any (fun m => m.isSelf) = true
          · rw [if_pos hany] at h
            obtain ⟨ha, -⟩ := ModuleAction.done.inj h.symm
            rw [ha] at hp
            simp at hp
          · rw [if_neg hany] at h
            have hnotself : ∀ m ∈ env.catalogMatches mn, m.isSelf = false := by
              intro m hm
              by_contra hc
              exact hany (List.any_eq_true.mpr ⟨m, hm, by
                simpa using hc⟩)
            by_cases hlen : (env.catalogMatches mn).length > 1
            · rw [if_pos hlen] at h
              by_cases hsr :
                  ((env.catalogMatches mn).filter
                    (fun m => goStartsWith m.pkg env.pythonProjectRoot)).length ≠ 1
              · rw [if_pos hsr] at h
                exact ih _ adds regs h p hp
              · rw [if_neg hsr] at h
                obtain ⟨ha, -⟩ := ModuleAction.done.inj h.symm
                have hne :
                    (env.catalogMatches mn).filter
                      (fun m => goStartsWith m.pkg env.pythonProjectRoot) ≠ [] := by
                  intro hc
                  rw [hc] at hsr
                  simp at hsr
                have hmem := headD_mem _ noFindResult hne
                have hmem' := List.mem_of_mem_filter hmem
                have hisfalse := hnotself _ hmem'
                have hdep :
                    (((env.catalogMatches mn).filter
                      (fun m => goStartsWith m.pkg env.pythonProjectRoot)).headD
                        noFindResult).dep ≠ selfLabel := by
                  intro hc
                  rw [(hcat mn _ hmem').mpr hc] at hisfalse
                  simp at hisfalse
                rw [ha] at hp
                rcases List.mem_singleton.mp hp with rfl
                exact hdep
            · rw [if_neg hlen] at h
              obtain ⟨ha, -⟩ := ModuleAction.done.inj h.symm
              have hmem := headD_mem _ noFindResult hfound
              have hisfalse := hnotself _ hmem
              have hdep : ((env.catalogMatches mn).headD noFindResult).dep ≠ selfLabel := by
                intro hc
                rw [(hcat mn _ hmem).mpr hc] at hisfalse
                simp at hisfalse
              rw [ha] at hp
              rcases List.mem_singleton.mp hp with rfl
              exact hdep

theorem moduleAction_done_not_self (env : ResolveEnv) (selfLabel : String)
    (how : OverridesWF env selfLabel) (hcat : CatalogWF env selfLabel)
    (htp : ThirdPartyNotSelf env selfLabel) (pkg : String) (mod : Module)
    (adds : List (String × Bool)) (regs : List (String × List String))
    (h : moduleAction env pkg mod = .done adds regs) :
    ∀ p ∈ adds, p.1 ≠ selfLabel := by
  intro p hp
  simp only [moduleAction] at h
  by_cases hrel : goStartsWith mod.From "." = true
  · rw [if_pos hrel] at h
    by_cases hskip :
        (!(env.experimentalAllowRelativeImports && isPackageGeneration env)) = true
    · rw [if_pos hskip] at h
      obtain ⟨ha, -⟩ := ModuleAction.done.inj h.symm
      rw [ha] at hp
      simp at hp
    · rw [if_neg hskip] at h
      cases hnorm : normalizeRelative pkg mod with
      | none =>
        rw [hnorm] at h
        obtain ⟨ha, -⟩ := ModuleAction.done.inj h.symm
        rw [ha] at hp
        simp at hp
      | some name =>
        rw [hnorm] at h
        exact candidateLoop_done_not_self env selfLabel how hcat htp mod _ _ adds regs h p hp
  · rw [if_neg hrel] at h
    exact candidateLoop_done_not_self env selfLabel how hcat htp mod _ _ adds regs h p hp

theorem addDependency_not_mem (x dep : String) (tco : Bool)
    (deps pyiDeps : Finset String) (h1 : x ∉ deps) (h2 : x ∉ pyiDeps)
    (hne : dep ≠ x) :
    x ∉ (addDependency dep tco deps pyiDeps).1 ∧
      x ∉ (addDependency dep tco deps pyiDeps).2 := by
  rcases tco with _ | _
  · refine ⟨?_, ?_⟩
    · simp only [addDependency, Bool.false_eq_true, if_false, Finset.mem_insert]
      rintro (rfl | hx)
      · exact hne rfl
      · exact h1 hx
    · simp only [addDependency, Bool.false_eq_true, if_false]
      intro hx
      exact h2 (Finset.mem_of_mem_erase hx)
  · by_cases hd : dep ∈ deps
    · simpa [addDependency, hd] using ⟨h1, h2⟩
    · refine ⟨by simpa [addDependency, hd] using h1, ?_⟩
      simp only [addDependency, hd, if_true, if_false, Finset.mem_insert]
      rintro (rfl | hx)
      · exact hne rfl
      · exact h2 hx

theorem applyAdds_not_mem (x : String) (adds : List (String × Bool))
    (sets : Finset String × Finset String) (h1 : x ∉ sets.1) (h2 : x ∉ sets.2)
    (hadds : ∀ p ∈ adds, p.1 ≠ x) :
    x ∉ (applyAdds adds sets).1 ∧ x ∉ (applyAdds adds sets).2 := by
  induction adds generalizing sets with
  | nil => exact ⟨h1, h2⟩
  | cons a rest ih =>
    simp only [applyAdds, List.foldl_cons]
    have hstep := addDependency_not_mem x a.1 a.2 sets.1 sets.2 h1 h2
      (hadds a (List.mem_cons_self a rest))
    exact ih _ hstep.1 hstep.2 (fun p hp => hadds p (List.mem_cons_of_mem a hp))

theorem processModule_not_self (env : ResolveEnv) (selfLabel : String)
    (how : OverridesWF env selfLabel) (hcat : CatalogWF env selfLabel)
    (htp : ThirdPartyNotSelf env selfLabel) (pkg : String) (st : ResolveState)
    (mod : Module) (h1 : selfLabel ∉ st.deps) (h2 : selfLabel ∉ st.pyiDeps) :
    selfLabel ∉ (processModule env pkg st mod).deps ∧
      selfLabel ∉ (processModule env pkg st mod).pyiDeps := by
  cases hact : moduleAction env pkg mod with
  | done adds regs =>
    have hadds := moduleAction_done_not_self env selfLabel how hcat htp pkg mod adds regs hact
    simpa [processModule, hact] using
      applyAdds_not_mem selfLabel adds (st.deps, st.pyiDeps) h1 h2 hadds
  | exhausted errs =>
    by_cases he : errs = [] <;> simp [processModule, hact, he, h1, h2]

theorem foldModules_not_self (env : ResolveEnv) (selfLabel : String)
    (how : OverridesWF env selfLabel) (hcat : CatalogWF env selfLabel)
    (htp : ThirdPartyNotSelf env selfLabel) (pkg : String) (mods : List Module)
    (st : ResolveState) (h1 : selfLabel ∉ st.deps) (h2 : selfLabel ∉ st.pyiDeps) :
    selfLabel ∉ (mods.foldl (processModule env pkg) st).deps ∧
      selfLabel ∉ (mods.foldl (processModule env pkg) st).pyiDeps := by
  induction mods generalizing st with
  | nil => exact ⟨h1, h2⟩
  | cons mod rest ih =>
    have hstep := processModule_not_self env selfLabel how hcat htp pkg st mod h1 h2
    exact ih _ hstep.1 hstep.2

theorem emitAttrs_deps (env : ResolveEnv) (d : DepsOrderResolver)
    (cur : List String) (deps pyiDeps : Finset String) :
    (emitAttrs env d cur deps pyiDeps).deps =
      if env.generatePyiDeps = true then (if deps = ∅ then none else some deps)
      else if deps ∪ pyiDeps = ∅ then none else some (deps ∪ pyiDeps) := by
  by_cases hg : env.generatePyiDeps = true <;> simp [emitAttrs, hg]

theorem emitAttrs_pyiDeps (env : ResolveEnv) (d : DepsOrderResolver)
    (cur : List String) (deps pyiDeps : Finset String) :
    (emitAttrs env d cur deps pyiDeps).pyiDeps =
      if env.generatePyiDeps = true then
        (if pyiDeps = ∅ then none else some pyiDeps)
      else none := by
  by_cases hg : env.generatePyiDeps = true <;> simp [emitAttrs, hg]

theorem emitAttrs_depsToRemove (env : ResolveEnv) (d : DepsOrderResolver)
    (cur : List String) (deps pyiDeps : Finset String) :
    (emitAttrs env d cur deps pyiDeps).depsToRemove =
      if env.generatePyiDeps = true then
        (if deps = ∅ then none
         else if createDepsToRemove d cur deps = ∅ then none
         else some (createDepsToRemove d cur deps))
      else if deps ∪ pyiDeps = ∅ then none
      else if createDepsToRemove d cur (deps ∪ pyiDeps) = ∅ then none
      else some (createDepsToRemove d cur (deps ∪ pyiDeps)) := by
  by_cases hg : env.generatePyiDeps = true <;> simp [emitAttrs, hg]

theorem emitAttrs_not_mem (x : String) (env : ResolveEnv) (d : DepsOrderResolver)
    (cur : List String) (deps pyiDeps : Finset String) (h1 : x ∉ deps)
    (h2 : x ∉ pyiDeps) :
    (∀ s, (emitAttrs env d cur deps pyiDeps).deps = some s → x ∉ s) ∧
    (∀ s, (emitAttrs env d cur deps pyiDeps).pyiDeps = some s → x ∉ s) ∧
    (∀ s, (emitAttrs env d cur deps pyiDeps).depsToRemove = some s → x ∉ s) := by
  have hu : x ∉ deps ∪ pyiDeps := by
    rw [Finset.mem_union]
    rintro (hx | hx)
    · exact h1 hx
    · exact h2 hx
  refine ⟨?_, ?_, ?_⟩ <;> intro s hs
  · rw [emitAttrs_deps] at hs
    split at hs
    · split at hs
      · exact absurd hs (by simp)
      · obtain rfl := Option.some.inj hs
        exact h1
    · split at hs
      · exact absurd hs (by simp)
      · obtain rfl := Option.some.inj hs
        exact hu
  · rw [emitAttrs_pyiDeps] at hs
    split at hs
    · split at hs
      · exact absurd hs (by simp)
      · obtain rfl := Option.some.inj hs
        exact h2
    · exact absurd hs (by simp)
  · rw [emitAttrs_depsToRemove] at hs
    split at hs
    · split at hs
      · exact absurd hs (by simp)
      · split at hs
        · exact absurd hs (by simp)
        · obtain rfl := Option.some.inj hs
          intro hx
          exact h1 (createDepsToRemove_subset d cur deps hx)
    · split at hs
      · exact absurd hs (by simp)
      · split at hs
        · exact absurd hs (by simp)
        · obtain rfl := Option.some.inj hs
          intro hx
          exact hu (createDepsToRemove_subset d cur (deps ∪ pyiDeps) hx)

/-! ## Lemmas about one Resolve call and the run driver -/

theorem resolveUnit_batches (env : ResolveEnv) (d0 : DepsOrderResolver)
    (u : UnitInput) (mods : List Module) (hm : u.modules = some mods) :
    (resolveUnit env d0 u).errorBatches =
      mods.filterMap (moduleErrorBatch env u.pkg) ∧
    (resolveUnit env d0 u).fatal =
      !(mods.filterMap (moduleErrorBatch env u.pkg)).isEmpty := by
  obtain ⟨hb, hf⟩ := foldModules_errorBatches env u.pkg mods
    { deps := ∅, pyiDeps := ∅, d := d0, errorBatches := [], hasFatalError := false }
  simp only [List.nil_append, Bool.false_or] at hb hf
  simp only [resolveUnit, hm]
  split
  · rename_i hcond
    rw [hf] at hcond
    exact ⟨hb, hcond.symm⟩
  · rename_i hcond
    rw [hf] at hcond
    simp only [Bool.not_eq_true] at hcond
    exact ⟨hb, hcond.symm⟩

theorem resolveUnit_not_self (env : ResolveEnv) (d0 : DepsOrderResolver)
    (u : UnitInput) (how : OverridesWF env u.selfLabel)
    (hcat : CatalogWF env u.selfLabel) (htp : ThirdPartyNotSelf env u.selfLabel)
    (hres : u.selfLabel ∉ u.resolvedDeps) :
    ∀ e, (resolveUnit env d0 u).emitted = some e →
      (∀ s, e.deps = some s → u.selfLabel ∉ s) ∧
      (∀ s, e.pyiDeps = some s → u.selfLabel ∉ s) ∧
      (∀ s, e.depsToRemove = some s → u.selfLabel ∉ s) := by
  intro e he
  rcases hm : u.modules with _ | mods
  · simp only [resolveUnit, hm] at he
    split at he
    · exact absurd he (by simp)
    · obtain rfl := Option.some.inj he
      have h1 : u.selfLabel ∉ (∅ : Finset String) := by simp
      have hd' : u.selfLabel ∉ addResolvedDeps ∅ u.resolvedDeps := by
        simp [addResolvedDeps, hres]
      exact emitAttrs_not_mem u.selfLabel env _ _ _ _ hd' h1
  · have hfold := foldModules_not_self env u.selfLabel how hcat htp u.pkg mods
      { deps := ∅, pyiDeps := ∅, d := d0, errorBatches := [], hasFatalError := false }
      (by simp) (by simp)
    simp only [resolveUnit, hm] at he
    split at he
    · exact absurd he (by simp)
    · obtain rfl := Option.some.inj he
      have hd' : u.selfLabel ∉
          addResolvedDeps
            (mods.foldl (processModule env u.pkg)
              { deps := ∅, pyiDeps := ∅, d := d0, errorBatches := [],
                hasFatalError := false }).deps u.resolvedDeps := by
        rw [addResolvedDeps, Finset.mem_union]
        rintro (hx | hx)
        · exact hfold.1 hx
        · exact hres hx
      exact emitAttrs_not_mem u.selfLabel env _ _ _ _ hd' hfold.2

theorem runUnits_nil (env : ResolveEnv) (d : DepsOrderResolver) :
    runUnits env d [] = [] := rfl

theorem runUnits_cons_fatal (env : ResolveEnv) (d : DepsOrderResolver)
    (u : UnitInput) (rest : List UnitInput)
    (h : (resolveUnit env d u).fatal = true) :
    runUnits env d (u :: rest) = [resolveUnit env d u] := by
  simp [runUnits, h]

theorem runUnits_cons_ok (env : ResolveEnv) (d : DepsOrderResolver)
    (u : UnitInput) (rest : List UnitInput)
    (h : (resolveUnit env d u).fatal = false) :
    runUnits env d (u :: rest) =
      resolveUnit env d u :: runUnits env (resolveUnit env d u).dOut rest := by
  simp [runUnits, h]

theorem emitAttrs_depsToRemove_subset (env : ResolveEnv) (d : DepsOrderResolver)
    (cur : List String) (deps pyiDeps : Finset String) (t : Finset String)
    (h : (emitAttrs env d cur deps pyiDeps).depsToRemove = some t) :
    ∃ base, (emitAttrs env d cur deps pyiDeps).deps = some base ∧ t ⊆ base := by
  rw [emitAttrs_depsToRemove] at h
  rw [emitAttrs_deps]
  split at h
  · rename_i hg
    rw [if_pos hg]
    split at h
    · exact absurd h (by simp)
    · rename_i hd
      rw [if_neg hd]
      split at h
      · exact absurd h (by simp)
      · obtain rfl := Option.some.inj h
        exact ⟨deps, rfl, createDepsToRemove_subset d cur deps⟩
  · rename_i hg
    rw [if_neg hg]
    split at h
    · exact absurd h (by simp)
    · rename_i hd
      rw [if_neg hd]
      split at h
      · exact absurd h (by simp)
      · obtain rfl := Option.some.inj h
        exact ⟨deps ∪ pyiDeps, rfl, createDepsToRemove_subset d cur (deps ∪ pyiDeps)⟩

/-! ## The claims -/

/-- Claim C7: for every qualified name, the candidate chain is exactly
the finite sequence that starts with the full name and continues with
the name with its last dotted segment removed, repeatedly, down to the
first segment alone, and its length equals the number of dotted
segments of the input (so in particular it never exceeds it). -/
theorem c7_candidate_chain (name : String) :
    possibleModulesOf name =
      name :: (List.range ((goSplit '.' name).length - 1)).map
        (fun i => goJoin "."
          ((goSplit '.' name).take ((goSplit '.' name).length - 1 - i))) ∧
    (possibleModulesOf name).length = (goSplit '.' name).length :=
  ⟨possibleModulesOf_eq name, possibleModulesOf_length name⟩

/-- Claim C3: for every non-empty order table, a unit's rank is the
arithmetic mean of the ranks of those of its source files found in the
table — each looked up first by exact repo-relative path and, failing
that, by bare filename; files found under neither key are excluded from
the mean — and when no file is found the rank is the table's total
entry count. -/
theorem c3_rank_is_mean (d : DepsOrderResolver) (srcs : List String)
    (h : d.fileToIndex ≠ []) :
    GetAverageIndex d srcs =
      if srcs.filterMap (fun src =>
          match assocLookup d.fileToIndex src with
          | some idx => some idx
          | none => assocLookup d.fileToIndex (filepathBase src)) = [] then
        (d.fileToIndex.length : ℚ)
      else
        ((srcs.filterMap (fun src =>
          match assocLookup d.fileToIndex src with
          | some idx => some idx
          | none => assocLookup d.fileToIndex (filepathBase src))).sum : ℚ) /
        ((srcs.filterMap (fun src =>
          match assocLookup d.fileToIndex src with
          | some idx => some idx
          | none => assocLookup d.fileToIndex (filepathBase src))).length : ℚ) :=
  getAverageIndex_eq d srcs h

/-- Witness for C3 at a concrete table and source list. -/
theorem c3_rank_is_mean_witness :
    GetAverageIndex dOrderedAB ["pkg/a.py"] =
      if (["pkg/a.py"] : List String).filterMap (fun src =>
          match assocLookup dOrderedAB.fileToIndex src with
          | some idx => some idx
          | none => assocLookup dOrderedAB.fileToIndex (filepathBase src)) = [] then
        (dOrderedAB.fileToIndex.length : ℚ)
      else
        (((["pkg/a.py"] : List String).filterMap (fun src =>
          match assocLookup dOrderedAB.fileToIndex src with
          | some idx => some idx
          | none => assocLookup dOrderedAB.fileToIndex (filepathBase src))).sum : ℚ) /
        (((["pkg/a.py"] : List String).filterMap (fun src =>
          match assocLookup dOrderedAB.fileToIndex src with
          | some idx => some idx
          | none => assocLookup dOrderedAB.fileToIndex (filepathBase src))).length : ℚ) :=
  c3_rank_is_mean dOrderedAB ["pkg/a.py"] (by decide)

/-- Claim C2: a resolved dependency edge is placed in the removal output
iff the current unit's rank is strictly below the dependency's rank
(ties are never flagged), flagging never removes the edge from the
inspected dependency set, and every flagged target is a member of the
dependency set the removal list was computed from, which is emitted
alongside it. -/
theorem c2_removal_iff_rank_lt (d : DepsOrderResolver) (cur : List String)
    (allDeps : Finset String) (dep : String) (hdep : dep ∈ allDeps) :
    (dep ∈ createDepsToRemove d cur allDeps ↔
      GetAverageIndex d cur < GetAverageIndex d (getSourcesForImport d dep)) ∧
    (GetAverageIndex d cur = GetAverageIndex d (getSourcesForImport d dep) →
      dep ∉ createDepsToRemove d cur allDeps) ∧
    createDepsToRemove d cur allDeps ⊆ allDeps ∧
    (∀ env deps pyiDeps t,
      (emitAttrs env d cur deps pyiDeps).depsToRemove = some t →
      ∃ base, (emitAttrs env d cur deps pyiDeps).deps = some base ∧ t ⊆ base) := by
  refine ⟨?_, ?_, createDepsToRemove_subset d cur allDeps,
    fun env deps pyiDeps t ht => emitAttrs_depsToRemove_subset env d cur deps pyiDeps t ht⟩
  · rw [mem_createDepsToRemove]
    simp [hdep]
  · intro heq hmem
    have := ((mem_createDepsToRemove d cur allDeps dep).mp hmem).2
    rw [heq] at this
    exact lt_irrefl _ this

/-- Witness for C2 at a concrete table, unit and dependency. -/
theorem c2_removal_iff_rank_lt_witness :
    createDepsToRemove dOrderedAB ["a.py"] {"//lib:b"} ⊆ {"//lib:b"} :=
  (c2_removal_iff_rank_lt dOrderedAB ["a.py"] {"//lib:b"} "//lib:b"
    (by decide)).2.2.1

/-- Claim C9: when separate emission of type-checking-only dependencies
is enabled, the removal list is computed from the normal set alone — a
dependency present only in the type-checking-only set never appears in
the removal output — and only when separate emission is disabled are
the two sets merged before the ordering check. -/
theorem c9_removal_base_set (env : ResolveEnv) (d : DepsOrderResolver)
    (cur : List String) (deps pyiDeps : Finset String) :
    (env.generatePyiDeps = true →
      (∀ x, x ∈ pyiDeps → x ∉ deps →
        ∀ s, (emitAttrs env d cur deps pyiDeps).depsToRemove = some s → x ∉ s) ∧
      (emitAttrs env d cur deps pyiDeps).depsToRemove =
        (if deps = ∅ then none
         else if createDepsToRemove d cur deps = ∅ then none
         else some (createDepsToRemove d cur deps))) ∧
    (env.generatePyiDeps = false →
      (emitAttrs env d cur deps pyiDeps).depsToRemove =
        (if deps ∪ pyiDeps = ∅ then none
         else if createDepsToRemove d cur (deps ∪ pyiDeps) = ∅ then none
         else some (createDepsToRemove d cur (deps ∪ pyiDeps)))) := by
  constructor
  · intro hg
    constructor
    · intro x hxp hxd s hs
      obtain ⟨base, hbase, hsub⟩ :=
        emitAttrs_depsToRemove_subset env d cur deps pyiDeps s hs
      rw [emitAttrs_deps, if_pos hg] at hbase
      intro hx
      split at hbase
      · exact absurd hbase (by simp)
      · obtain rfl := Option.some.inj hbase
        exact hxd (hsub hx)
    · rw [emitAttrs_depsToRemove, if_pos hg]
  · intro hg
    rw [emitAttrs_depsToRemove, if_neg (by simp [hg])]

/-- Witness for C9 at a concrete environment with separate emission. -/
theorem c9_removal_base_set_witness :
    (emitAttrs envCatalogFoo dOrderedAB ["a.py"] ∅ {"//lib:b"}).depsToRemove =
      (if (∅ : Finset String) = ∅ then none
       else if createDepsToRemove dOrderedAB ["a.py"] ∅ = ∅ then none
       else some (createDepsToRemove dOrderedAB ["a.py"] ∅)) :=
  ((c9_removal_base_set envCatalogFoo dOrderedAB ["a.py"] ∅ {"//lib:b"}).1 rfl).2

/-- Counterexample to claim C1 as stated: merging the pre-resolved
dependency names inserts into the normal set without removing the name
from the type-checking-only set, so a name first added as
type-checking-only and also present in the pre-resolved names ends up
in both sets — and the overlap survives into the emitted attributes. -/
theorem c1_counterexample :
    (addDependency "d" true ∅ ∅).1 ∩ (addDependency "d" true ∅ ∅).2 = ∅ ∧
    addResolvedDeps (addDependency "d" true ∅ ∅).1 {"d"} ∩
      (addDependency "d" true ∅ ∅).2 ≠ ∅ ∧
    (resolveUnit envCatalogFoo NewDepsOrderResolver unitPyiOverlap).emitted =
      some { deps := some {"//lib:foo"}, pyiDeps := some {"//lib:foo"},
             depsToRemove := none } := by
  decide

/-- Claim C1 as amended: adding with type-checking-only = false places
the target in the normal set and removes it from the type-checking-only
set; adding with type-checking-only = true inserts into the
type-checking-only set only when the target is not already in the
normal set; every record processed by the modules loop preserves
disjointness of the two sets; but the pre-resolved names are merged
into the normal set with no removal from the type-checking-only set, so
that merge preserves disjointness only when no pre-resolved name is
already in the type-checking-only set. -/
theorem c1_disjointness_amended :
    (∀ dep tco deps pyiDeps, deps ∩ pyiDeps = (∅ : Finset String) →
      (addDependency dep tco deps pyiDeps).1 ∩
        (addDependency dep tco deps pyiDeps).2 = ∅) ∧
    (∀ dep deps pyiDeps, dep ∈ (addDependency dep false deps pyiDeps).1 ∧
      dep ∉ (addDependency dep false deps pyiDeps).2) ∧
    (∀ dep deps pyiDeps, dep ∈ deps →
      addDependency dep true deps pyiDeps = (deps, pyiDeps)) ∧
    (∀ dep deps pyiDeps, dep ∉ deps →
      addDependency dep true deps pyiDeps = (deps, insert dep pyiDeps)) ∧
    (∀ env pkg st mod, st.deps ∩ st.pyiDeps = ∅ →
      (processModule env pkg st mod).deps ∩
        (processModule env pkg st mod).pyiDeps = ∅) ∧
    (∀ deps resolvedDeps : Finset String,
      addResolvedDeps deps resolvedDeps = deps ∪ resolvedDeps) ∧
    (∀ deps pyiDeps resolvedDeps : Finset String, deps ∩ pyiDeps = ∅ →
      resolvedDeps ∩ pyiDeps = ∅ →
      addResolvedDeps deps resolvedDeps ∩ pyiDeps = ∅) := by
  refine ⟨addDependency_disjoint, addDependency_false_mem,
    addDependency_true_of_mem, addDependency_true_of_not_mem,
    processModule_disjoint, fun deps resolvedDeps => rfl, ?_⟩
  intro deps pyiDeps resolvedDeps h1 h2
  rw [addResolvedDeps, Finset.union_inter_distrib_right, h1, h2,
    Finset.union_empty]

/-- Witness for the amended C1 at concrete sets. -/
theorem c1_disjointness_amended_witness :
    (addDependency "a" true {"x"} ∅).1 ∩ (addDependency "a" true {"x"} ∅).2 = ∅ :=
  c1_disjointness_amended.1 "a" true {"x"} ∅ (by decide)

/-- Counterexample to claim C5 as stated: the pre-resolved dependency
names are merged with no self-filtering, so a unit whose own label sits
in its pre-resolved names emits itself in its normal dependency set. -/
theorem c5_counterexample :
    unitSelfResolved.selfLabel ∈ unitSelfResolved.resolvedDeps ∧
    unitSelfResolved.selfLabel = "//app:app" ∧
    (resolveUnit envStrictEmpty NewDepsOrderResolver unitSelfResolved).emitted =
      some { deps := some {"//app:app"}, pyiDeps := none, depsToRemove := none } := by
  decide

/-- Claim C5 as amended: catalog matches equal to the current unit are
dropped and a self-referential override contributes nothing, so — as
long as the third-party manifest maps no name to the current unit and
the pre-resolved names do not contain it — the unit never appears in
any of its emitted output sets; the pre-resolved names themselves are
merged without self-filtering, which is why that hypothesis is
required. -/
theorem c5_no_self_amended (env : ResolveEnv) (d0 : DepsOrderResolver)
    (u : UnitInput) (how : OverridesWF env u.selfLabel)
    (hcat : CatalogWF env u.selfLabel) (htp : ThirdPartyNotSelf env u.selfLabel)
    (hres : u.selfLabel ∉ u.resolvedDeps) :
    ∀ e, (resolveUnit env d0 u).emitted = some e →
      (∀ s, e.deps = some s → u.selfLabel ∉ s) ∧
      (∀ s, e.pyiDeps = some s → u.selfLabel ∉ s) ∧
      (∀ s, e.depsToRemove = some s → u.selfLabel ∉ s) :=
  resolveUnit_not_self env d0 u how hcat htp hres

/-- Witness for the amended C5: in the concrete catalog run the emitted
normal set does not contain the unit's label. -/
theorem c5_no_self_amended_witness :
    "//app:app" ∉ ({"//lib:foo"} : Finset String) :=
  ((c5_no_self_amended envCatalogFoo NewDepsOrderResolver unitPyiOverlap
      (by intro n r h; simp [envCatalogFoo] at h)
      (by
        intro n m hm
        simp only [envCatalogFoo] at hm
        split at hm
        · rw [List.mem_singleton] at hm
          subst hm
          simp [unitPyiOverlap]
        · simp at hm)
      (by intro n p h; simp [envCatalogFoo] at h)
      (by decide))
    { deps := some {"//lib:foo"}, pyiDeps := some {"//lib:foo"},
      depsToRemove := none }
    (by decide)).1 {"//lib:foo"} rfl

/-- Counterexample to claim C4 as stated: a unit with two failing
records surfaces two separate error batches (one per record, not one
per unit), and the run stops at the end of that unit — the second unit
of the run is never attempted. -/
theorem c4_counterexample :
    (resolveUnit envStrictEmpty NewDepsOrderResolver unitTwoFailing).errorBatches =
      [[ResErr.unresolved "app/x.py" 1 "aaa"],
       [ResErr.unresolved "app/x.py" 2 "bbb"]] ∧
    (resolveUnit envStrictEmpty NewDepsOrderResolver unitTwoFailing).fatal = true ∧
    (runUnits envStrictEmpty NewDepsOrderResolver
      [unitTwoFailing, unitAfter]).length = 1 := by
  decide

/-- Claim C4 as amended: the errors of one import record are accumulated
across its candidate chain and surfaced together as one batch after
that record's candidates are exhausted; every record of the unit is
still attempted (each failing record contributes its own batch), the
unit is fatal exactly when some record produced a non-empty batch, and
a fatal unit terminates the run before any later unit is attempted
while a non-fatal unit lets the run continue. -/
theorem c4_batching_amended :
    (∀ env d0 u mods, u.modules = some mods →
      (resolveUnit env d0 u).errorBatches =
        mods.filterMap (moduleErrorBatch env u.pkg) ∧
      (resolveUnit env d0 u).fatal =
        !(mods.filterMap (moduleErrorBatch env u.pkg)).isEmpty) ∧
    (∀ env d u rest, (resolveUnit env d u).fatal = true →
      runUnits env d (u :: rest) = [resolveUnit env d u]) ∧
    (∀ env d u rest, (resolveUnit env d u).fatal = false →
      runUnits env d (u :: rest) =
        resolveUnit env d u :: runUnits env (resolveUnit env d u).dOut rest) :=
  ⟨fun env d0 u mods hm => resolveUnit_batches env d0 u mods hm,
   runUnits_cons_fatal, runUnits_cons_ok⟩

/-- Witness for the amended C4 at the concrete failing unit. -/
theorem c4_batching_amended_witness :
    (resolveUnit envStrictEmpty NewDepsOrderResolver unitTwoFailing).errorBatches =
      modsTwoFailing.filterMap
        (moduleErrorBatch envStrictEmpty unitTwoFailing.pkg) ∧
    (resolveUnit envStrictEmpty NewDepsOrderResolver unitTwoFailing).fatal =
      !(modsTwoFailing.filterMap
        (moduleErrorBatch envStrictEmpty unitTwoFailing.pkg)).isEmpty :=
  c4_batching_amended.1 envStrictEmpty NewDepsOrderResolver unitTwoFailing
    modsTwoFailing rfl

/-- Claim C10: a file appearing on multiple non-ignored lines gets the
zero-based index of its last occurrence as its rank, every non-ignored
line (duplicates included) still consumes one rank index, and the
fallback rank of a unit with no files in the table — the count of
distinct table entries — can be lower than the highest rank assigned to
a listed file. -/
theorem c10_duplicate_lines :
    (∀ lines f,
      assocLookup (scanLines [] 0 lines) f = lastIdxOf (keptLines lines) f) ∧
    ((scanLines [] 0 ["a.py", "a.py", "a.py"]).length = 1 ∧
     assocLookup (scanLines [] 0 ["a.py", "a.py", "a.py"]) "a.py" = some 2 ∧
     GetAverageIndex
       { fileToIndex := scanLines [] 0 ["a.py", "a.py", "a.py"], loaded := true,
         importToSrcs := [] } ["other.py"] =
       ((scanLines [] 0 ["a.py", "a.py", "a.py"]).length : ℚ) ∧
     (scanLines [] 0 ["a.py", "a.py", "a.py"]).length < 2) := by
  refine ⟨scanLines_lookup_fresh, by decide, by decide, ?_, by decide⟩
  have h := getAverageIndex_eq
    { fileToIndex := scanLines [] 0 ["a.py", "a.py", "a.py"], loaded := true,
      importToSrcs := [] } ["other.py"] (by decide)
  rw [h, if_pos (by decide)]

/-- Counterexample to claim C8 as stated: a read failure after one line
was scanned is surfaced as an error yet leaves that line in the table
(the table does not remain empty), and after a failed load the next
load call is not a no-op — it loads the table. -/
theorem c8_counterexample :
    (LoadDepsOrder NewDepsOrderResolver (FileResult.ok ["a.py"] true)).2 = true ∧
    (LoadDepsOrder NewDepsOrderResolver
      (FileResult.ok ["a.py"] true)).1.fileToIndex ≠ [] ∧
    LoadDepsOrder (LoadDepsOrder NewDepsOrderResolver FileResult.openError).1
        (FileResult.ok ["a.py"] false) ≠
      ((LoadDepsOrder NewDepsOrderResolver FileResult.openError).1, false) := by
  decide

/-- Claim C8 as amended: a load call after a call that left the resolver
marked loaded (a successful scan or a missing file) is a no-op; the
scanner skips blank and comment lines and assigns consecutive
zero-based ranks (position of the last occurrence among the kept
lines); a missing source yields an empty table with no error; an open
failure other than not-found returns an error leaving the table
unchanged and the loaded flag unset (so a later call retries); a
mid-scan failure returns an error but leaves the already-scanned
entries in the table; the resolver treats a load error as a non-fatal
warning and the run continues, emitting attributes as usual. -/
theorem c8_load_amended :
    (∀ d fr, d.loaded = true → LoadDepsOrder d fr = (d, false)) ∧
    (∀ d fr fr', (LoadDepsOrder d fr).1.loaded = true →
      LoadDepsOrder (LoadDepsOrder d fr).1 fr' = ((LoadDepsOrder d fr).1, false)) ∧
    (∀ d, d.loaded = false →
      LoadDepsOrder d FileResult.missing = ({ d with loaded := true }, false)) ∧
    (∀ d, d.loaded = false → LoadDepsOrder d FileResult.openError = (d, true)) ∧
    (∀ d lines, d.loaded = false →
      LoadDepsOrder d (FileResult.ok lines false) =
        ({ d with fileToIndex := scanLines d.fileToIndex 0 lines, loaded := true },
          false)) ∧
    (∀ d lines, d.loaded = false →
      LoadDepsOrder d (FileResult.ok lines true) =
        ({ d with fileToIndex := scanLines d.fileToIndex 0 lines }, true)) ∧
    (∀ lines f,
      assocLookup (scanLines [] 0 lines) f = lastIdxOf (keptLines lines) f) ∧
    (∀ env u d0, env.fileResult = FileResult.openError → u.modules = some [] →
      (resolveUnit env d0 u).fatal = false ∧
      (resolveUnit env d0 u).loadWarning = !d0.loaded ∧
      (resolveUnit env d0 u).emitted ≠ none) := by
  have base : ∀ (d : DepsOrderResolver) (fr : FileResult), d.loaded = true →
      LoadDepsOrder d fr = (d, false) := by
    intro d fr h
    simp [LoadDepsOrder, h]
  refine ⟨base, fun d fr fr' h => base _ fr' h, ?_, ?_, ?_, ?_,
    scanLines_lookup_fresh, ?_⟩
  · intro d h
    simp [LoadDepsOrder, h]
  · intro d h
    simp [LoadDepsOrder, h]
  · intro d lines h
    simp [LoadDepsOrder, h]
  · intro d lines h
    simp [LoadDepsOrder, h]
  · intro env u d0 hfr hm
    cases hl : d0.loaded <;>
      simp [resolveUnit, hm, hfr, LoadDepsOrder, hl]

/-- Witness for the amended C8 at the fresh resolver. -/
theorem c8_load_amended_witness :
    LoadDepsOrder NewDepsOrderResolver FileResult.missing =
      ({ NewDepsOrderResolver with loaded := true }, false) :=
  c8_load_amended.2.2.1 NewDepsOrderResolver rfl

theorem leadingDots_pos (s : String) (h : goStartsWith s "." = true) :
    1 ≤ leadingDots s := by
  have hdot : (".").toList = ['.'] := rfl
  rw [goStartsWith, hdot] at h
  cases hs : s.toList with
  | nil =>
    rw [hs] at h
    simp [List.isPrefixOf] at h
  | cons c rest =>
    rw [hs] at h
    simp only [List.isPrefixOf, List.isPrefixOf_nil_left, Bool.and_true,
      beq_iff_eq] at h
    rw [leadingDots, hs]
    subst h
    simp [List.takeWhile_cons]

/-- Claim C6: for an import record with a leading-dot `From` of depth d,
resolved with relative imports enabled in whole-package generation:
when d − 1 exceeds the number of path segments of the current package
the record fails as an invalid relative import and is skipped without
changing the unit's state; otherwise the normalized name ascends d − 1
levels from the current package path, appends the subpath segments (if
any) and the imported symbol, joins with the dot separator, and seeds
the candidate chain with that name. -/
theorem c6_relative_import (env : ResolveEnv) (pkg : String) (mod : Module)
    (hrel : goStartsWith mod.From "." = true)
    (hallow : env.experimentalAllowRelativeImports = true)
    (hpkgGen : isPackageGeneration env = true) :
    (leadingDots mod.From - 1 > (goSplit '/' pkg).length →
      normalizeRelative pkg mod = none ∧
      moduleAction env pkg mod = ModuleAction.done [] [] ∧
      (∀ st, processModule env pkg st mod = st)) ∧
    (leadingDots mod.From - 1 ≤ (goSplit '/' pkg).length →
      normalizeRelative pkg mod =
        some (goJoin "."
          ((goSplit '/' pkg).take
              ((goSplit '/' pkg).length - (leadingDots mod.From - 1)) ++
            (if trimLeadingDots mod.From = "" then []
             else goSplit '.' (trimLeadingDots mod.From)) ++
            [lastSegment mod.Name])) ∧
      moduleAction env pkg mod =
        candidateLoop env mod
          (possibleModulesOf (goJoin "."
            ((goSplit '/' pkg).take
                ((goSplit '/' pkg).length - (leadingDots mod.From - 1)) ++
              (if trimLeadingDots mod.From = "" then []
               else goSplit '.' (trimLeadingDots mod.From)) ++
              [lastSegment mod.Name]))) []) := by
  have hcond :
      (!(env.experimentalAllowRelativeImports && isPackageGeneration env)) = false := by
    simp [hallow, hpkgGen]
  constructor
  · intro hgt
    have hnone : normalizeRelative pkg mod = none := by
      simp only [normalizeRelative]
      rw [if_pos hgt]
    have hma : moduleAction env pkg mod = ModuleAction.done [] [] := by
      simp only [moduleAction]
      rw [if_pos hrel, hcond]
      simp only [Bool.false_eq_true, if_false, hnone]
    refine ⟨hnone, hma, ?_⟩
    intro st
    simp [processModule, hma, applyAdds, applyRegs]
  · intro hle
    have hd1 : 1 ≤ leadingDots mod.From := leadingDots_pos mod.From hrel
    have hsome : normalizeRelative pkg mod =
        some (goJoin "."
          ((goSplit '/' pkg).take
              ((goSplit '/' pkg).length - (leadingDots mod.From - 1)) ++
            (if trimLeadingDots mod.From = "" then []
             else goSplit '.' (trimLeadingDots mod.From)) ++
            [lastSegment mod.Name])) := by
      simp only [normalizeRelative]
      rw [if_neg (by omega)]
      by_cases hgt1 : leadingDots mod.From > 1
      · rw [if_pos hgt1]
      · rw [if_neg hgt1]
        have hd : leadingDots mod.From - 1 = 0 := by omega
        rw [hd, Nat.sub_zero, List.take_length]
    refine ⟨hsome, ?_⟩
    simp only [moduleAction]
    rw [if_pos hrel, hcond]
    simp only [Bool.false_eq_true, if_false, hsome]

/-- Witness for C6 at the concrete record `from .. import sym` in
package `a/b`. -/
theorem c6_relative_import_witness :
    normalizeRelative "a/b" modRelative =
      some (goJoin "."
        ((goSplit '/' "a/b").take
            ((goSplit '/' "a/b").length - (leadingDots modRelative.From - 1)) ++
          (if trimLeadingDots modRelative.From = "" then []
           else goSplit '.' (trimLeadingDots modRelative.From)) ++
          [lastSegment modRelative.Name])) :=
  ((c6_relative_import envIdle "a/b" modRelative (by decide) (by decide)
    (by decide)).2 (by decide)).1

end GazellePython
